import Mathlib

/-!
Verification of the segmented transfer engine of `termDM.py`
(`DownloadManager`): segment planning, resume inspection, segment fetch
with retry, merge fallback and integrity checking, shallowly embedded as
executable Lean definitions mirroring the Python source.
-/

namespace TermDM

/-- Number of retry attempts allowed in `download_chunk` (source line 18). -/
def MAX_RETRIES : Nat := 5

/-- Delay in seconds between retry attempts (source line 19). -/
def RETRY_DELAY : Nat := 5

/-- Buffer size used for streamed reads and the merge fallback (source line 20). -/
def CHUNK_READ_SIZE : Nat := 64 * 1024

/-! ## Segment planner (`DownloadManager.main`, lines 668-670)

The source builds, for `num_threads = N` and `file_size = S`:
`chunk_size = file_size // num_threads`,
`chunks = [(i * chunk_size, (i + 1) * chunk_size - 1) for i in range(num_threads)]`,
then replaces the last pair's end with `''` (open-ended).
Ends are `Int`-valued (Python ends can be `-1` when `chunk_size = 0`);
the open end `''` is modelled as `none`. -/

/-- The list comprehension of source line 669: bounded chunks for every index. -/
def chunksComprehension (S N : Nat) : List (Int × Option Int) :=
  (List.range N).map fun (i : Nat) =>
    ((i : Int) * ((S / N : Nat) : Int),
     some (((i : Int) + 1) * ((S / N : Nat) : Int) - 1))

/-- The assignment `chunks[-1] = (chunks[-1][0], '')` of source line 670:
replace the last chunk's end with the open end. -/
def setLastOpen : List (Int × Option Int) → List (Int × Option Int)
  | [] => []
  | [c] => [(c.1, none)]
  | c :: c' :: rest => c :: setLastOpen (c' :: rest)

/-- The complete segment plan produced by `main` when ranges are supported. -/
def planChunks (S N : Nat) : List (Int × Option Int) :=
  setLastOpen (chunksComprehension S N)

/-- Closed form of the segment at index `i` of the plan (derived; compared
against `planChunks` in the planner theorem). -/
def plannedSeg (S N i : Nat) : Int × Option Int :=
  ((i : Int) * ((S / N : Nat) : Int),
   if i = N - 1 then none
   else some (((i : Int) + 1) * ((S / N : Nat) : Int) - 1))

/-- The set of byte offsets a chunk covers, for a resource of `S` bytes:
a bounded chunk `(s, some e)` covers `[s, e]`; the open last chunk `(s, none)`
fetches until the connection ends, hence covers `[s, S)`. -/
def inSeg (S : Nat) (c : Int × Option Int) (x : Int) : Prop :=
  match c.2 with
  | some e => c.1 ≤ x ∧ x ≤ e
  | none => c.1 ≤ x ∧ x < (S : Int)

lemma setLastOpen_append_singleton (xs : List (Int × Option Int)) (c : Int × Option Int) :
    setLastOpen (xs ++ [c]) = xs ++ [(c.1, none)] := by
  induction xs with
  | nil => rfl
  | cons a as ih =>
    cases as with
    | nil => cases c; rfl
    | cons b bs => simpa [setLastOpen] using ih

lemma planChunks_eq_map (S N : Nat) (hN : 0 < N) :
    planChunks S N = (List.range N).map (plannedSeg S N) := by
  obtain ⟨M, rfl⟩ : ∃ M, N = M + 1 := ⟨N - 1, by omega⟩
  unfold planChunks chunksComprehension
  rw [List.range_succ, List.map_append, List.map_append, List.map_singleton,
    List.map_singleton, setLastOpen_append_singleton]
  congr 1
  · apply List.map_congr_left
    intro i hi
    have hi' : i < M := List.mem_range.mp hi
    simp [plannedSeg, Nat.add_sub_cancel, Nat.ne_of_lt hi']
  · simp [plannedSeg, Nat.add_sub_cancel]

lemma planChunks_length (S N : Nat) (hN : 0 < N) :
    (planChunks S N).length = N := by
  rw [planChunks_eq_map S N hN]; simp

lemma inSeg_plannedSeg_of_ne (S N i : Nat) (hi : i ≠ N - 1) (n : Nat) :
    inSeg S (plannedSeg S N i) (n : Int) ↔
      i * (S / N) ≤ n ∧ n < (i + 1) * (S / N) := by
  simp only [plannedSeg, if_neg hi, inSeg]
  generalize S / N = m
  have h2 : (((i + 1) * m : Nat) : Int) = ((i : Int) + 1) * (m : Int) := by
    push_cast; ring
  omega

lemma inSeg_plannedSeg_last (S N : Nat) (n : Nat) :
    inSeg S (plannedSeg S N (N - 1)) (n : Int) ↔
      (N - 1) * (S / N) ≤ n ∧ n < S := by
  simp only [plannedSeg, if_pos rfl, inSeg]
  generalize S / N = m
  generalize N - 1 = k
  push_cast
  omega

lemma lt_div_succ_mul (n m : Nat) (hm : 0 < m) : n < (n / m + 1) * m := by
  rw [← Nat.div_lt_iff_lt_mul hm]
  exact Nat.lt_succ_self _

/-- The index of the chunk holding byte `n`: the last chunk when
`chunk_size = 0`, otherwise `min (n / chunk_size) (N - 1)`. -/
def chunkIndexOf (S N n : Nat) : Nat :=
  if S / N = 0 then N - 1 else min (n / (S / N)) (N - 1)

lemma chunkIndexOf_mem (S N n : Nat) (hN : 0 < N) (hn : n < S) :
    chunkIndexOf S N n < N ∧ inSeg S (plannedSeg S N (chunkIndexOf S N n)) (n : Int) := by
  unfold chunkIndexOf
  by_cases hm : S / N = 0
  · rw [if_pos hm]
    refine ⟨by omega, ?_⟩
    rw [inSeg_plannedSeg_last, hm]
    omega
  · rw [if_neg hm]
    have hm' : 0 < S / N := Nat.pos_of_ne_zero hm
    refine ⟨by omega, ?_⟩
    by_cases hlast : N - 1 ≤ n / (S / N)
    · have : min (n / (S / N)) (N - 1) = N - 1 := by omega
      rw [this, inSeg_plannedSeg_last]
      have := (Nat.le_div_iff_mul_le hm').mp hlast
      exact ⟨this, hn⟩
    · have hmin : min (n / (S / N)) (N - 1) = n / (S / N) := by omega
      rw [hmin, inSeg_plannedSeg_of_ne]
      · exact ⟨Nat.div_mul_le_self n (S / N), lt_div_succ_mul n (S / N) hm'⟩
      · omega

lemma chunkIndexOf_unique (S N n : Nat) (hN : 0 < N) (j : Nat)
    (hj : j < N) (hmem : inSeg S (plannedSeg S N j) (n : Int)) :
    j = chunkIndexOf S N n := by
  unfold chunkIndexOf
  by_cases hjlast : j = N - 1
  · subst hjlast
    rw [inSeg_plannedSeg_last] at hmem
    by_cases hm : S / N = 0
    · rw [if_pos hm]
    · rw [if_neg hm]
      have hm' : 0 < S / N := Nat.pos_of_ne_zero hm
      have : N - 1 ≤ n / (S / N) := (Nat.le_div_iff_mul_le hm').mpr hmem.1
      omega
  · rw [inSeg_plannedSeg_of_ne S N j hjlast] at hmem
    have hm' : 0 < S / N := by
      rcases Nat.eq_zero_or_pos (S / N) with h0 | h
      · rw [h0] at hmem; omega
      · exact h
    have h1 : j ≤ n / (S / N) := (Nat.le_div_iff_mul_le hm').mpr hmem.1
    have h2 : n / (S / N) < j + 1 := (Nat.div_lt_iff_lt_mul hm').mpr hmem.2
    have hj' : j = n / (S / N) := by omega
    rw [if_neg (by omega : ¬ S / N = 0)]
    omega

/-- C1: for every positive total size `S` and concurrency `N ≥ 1` with range
support, the planner produces exactly `N` ordered segments, the `i`-th
starting at `i * (S / N)`, every segment but the last ending at the next
segment's start minus one, the last segment open-ended, and together the
segments partition `[0, S)` with no gaps and no overlaps (every byte lies
in exactly one segment). -/
theorem planner_partition (S N : Nat) (hS : 0 < S) (hN : 0 < N) :
    (planChunks S N).length = N ∧
    planChunks S N = (List.range N).map (plannedSeg S N) ∧
    (∀ i, i < N → (plannedSeg S N i).1 = (i : Int) * ((S / N : Nat) : Int)) ∧
    (∀ i, i + 1 < N → (plannedSeg S N i).2 = some ((plannedSeg S N (i + 1)).1 - 1)) ∧
    (plannedSeg S N (N - 1)).2 = none ∧
    (∀ n : Nat, n < S → ∃! i : Nat, i < N ∧ inSeg S (plannedSeg S N i) (n : Int)) := by
  refine ⟨planChunks_length S N hN, planChunks_eq_map S N hN, ?_, ?_, ?_, ?_⟩
  · intro i _
    rfl
  · intro i hi
    have hne : i ≠ N - 1 := by omega
    have hcast : ((i + 1 : Nat) : Int) = (i : Int) + 1 := by push_cast; ring
    simp only [plannedSeg, if_neg hne, hcast]
  · simp [plannedSeg]
  · intro n hn
    refine ⟨chunkIndexOf S N n, chunkIndexOf_mem S N n hN hn, ?_⟩
    intro j hj
    exact chunkIndexOf_unique S N n hN j hj.1 hj.2

/-- Witness for C1 at `S = 100`, `N = 4`. -/
theorem planner_partition_witness :
    (planChunks 100 4).length = 4 ∧
    planChunks 100 4 = (List.range 4).map (plannedSeg 100 4) ∧
    (∀ i, i < 4 → (plannedSeg 100 4 i).1 = (i : Int) * ((100 / 4 : Nat) : Int)) ∧
    (∀ i, i + 1 < 4 → (plannedSeg 100 4 i).2 = some ((plannedSeg 100 4 (i + 1)).1 - 1)) ∧
    (plannedSeg 100 4 (4 - 1)).2 = none ∧
    (∀ n : Nat, n < 100 → ∃! i : Nat, i < 4 ∧ inSeg 100 (plannedSeg 100 4 i) (n : Int)) :=
  planner_partition 100 4 (by decide) (by decide)

/-! ## Merge fallback (`merge_chunks_fast` Method 2, lines 268-287)

A file is a list of byte values; a missing file is `none`. The fallback
streams each existing segment file into the destination in index order,
reading in `CHUNK_READ_SIZE` buffers. -/

/-- The inner `while True: chunk = infile.read(CHUNK_READ_SIZE); ...` loop
(lines 276-285): the byte stream written to the output for one segment
file. -/
def copyFileLoop (bs : List Nat) : List Nat :=
  if h : bs = [] then []
  else bs.take CHUNK_READ_SIZE ++ copyFileLoop (bs.drop CHUNK_READ_SIZE)
termination_by bs.length
decreasing_by
  simp only [List.length_drop]
  have h1 : bs.length ≠ 0 := fun hl => h (List.eq_nil_of_length_eq_zero hl)
  have h2 : 0 < CHUNK_READ_SIZE := by decide
  omega

/-- Method 2 of `merge_chunks_fast` (lines 268-287): for each segment file in
index order, skip it when missing (`continue`), otherwise append its
streamed bytes to the destination (opened fresh with `'wb'`). -/
def merge_chunks_fallback (temp_files : List (Option (List Nat))) : List Nat :=
  temp_files.foldl (fun out f =>
    match f with
    | none => out
    | some bs => out ++ copyFileLoop bs) []

lemma copyFileLoop_eq (bs : List Nat) : copyFileLoop bs = bs := by
  rw [copyFileLoop]
  by_cases h : bs = []
  · simp [h]
  · rw [dif_neg h, copyFileLoop_eq (bs.drop CHUNK_READ_SIZE)]
    exact List.take_append_drop _ bs
termination_by bs.length
decreasing_by
  simp only [List.length_drop]
  have h1 : bs.length ≠ 0 := fun hl => h (List.eq_nil_of_length_eq_zero hl)
  have h2 : 0 < CHUNK_READ_SIZE := by decide
  omega

lemma merge_chunks_fallback_foldl (contents : List (List Nat)) (acc : List Nat) :
    (contents.map some).foldl (fun out f =>
      match f with
      | none => out
      | some bs => out ++ copyFileLoop bs) acc = acc ++ contents.flatten := by
  induction contents generalizing acc with
  | nil => simp
  | cons c cs ih =>
    dsimp only [List.map_cons, List.foldl_cons]
    rw [copyFileLoop_eq, ih]
    simp

/-- C2: when every segment file exists (the input is `contents.map some`),
the merge fallback writes the destination as the exact ordered
concatenation of the segment files' contents in index order. Completion
order of the fetch tasks does not appear: the fallback reads only the
on-disk contents, in list order. -/
theorem merge_fallback_is_ordered_concat (contents : List (List Nat)) :
    merge_chunks_fallback (contents.map some) = contents.flatten := by
  simpa [merge_chunks_fallback] using merge_chunks_fallback_foldl contents []

/-! ## Integrity check (`verify_file_integrity`, lines 432-456)

`os.path.getsize(filepath)` is modelled as an `Option Int`: `none` is any
failure to read the merged file's size (for example, a missing file), which
in the source lands in the bare `except` clause. The Python float literals
`0.02` and `0.05` are modelled as the rationals `2 / 100` and `5 / 100`. -/

/-- `verify_file_integrity` (lines 432-456). -/
def verify_file_integrity (actualSize : Option Int)
    (expected_size actual_chunk_size : Int) : Bool :=
  match actualSize with
  | none => false
  | some actual_size =>
    let expected_from_chunks := actual_chunk_size
    let tolerance : ℚ := ((max expected_size expected_from_chunks : Int) : ℚ) * (2 / 100)
    if |(actual_size : ℚ) - (expected_size : ℚ)| ≤ tolerance ∨
        |(actual_size : ℚ) - (expected_from_chunks : ℚ)| ≤ tolerance then
      true
    else if |(actual_size : ℚ) - (expected_from_chunks : ℚ)| ≤
        (expected_from_chunks : ℚ) * (5 / 100) then
      true
    else
      false

lemma verify_file_integrity_iff (a e c : Int) :
    verify_file_integrity (some a) e c = true ↔
      (|(a : ℚ) - (e : ℚ)| ≤ ((max e c : Int) : ℚ) * (2 / 100) ∨
       |(a : ℚ) - (c : ℚ)| ≤ ((max e c : Int) : ℚ) * (2 / 100) ∨
       |(a : ℚ) - (c : ℚ)| ≤ (c : ℚ) * (5 / 100)) := by
  simp only [verify_file_integrity]
  split
  · rename_i h
    simp only [true_iff]
    tauto
  · rename_i h
    split
    · rename_i h2
      simp only [true_iff]
      tauto
    · rename_i h2
      simp only [Bool.false_eq_true, false_iff]
      tauto

/-- C3: the integrity check accepts when the actual merged size is within the
2% tolerance (relative to the larger reference) of either the probe-derived
expected size or the segment-derived size, accepts (with a warning) when it
is within the 5% tolerance of the segment-derived size, and rejects
otherwise; in particular it accepts exact equality with either reference
and rejects an actual size farther than the larger of the two tolerances
from both references. -/
theorem integrity_tolerance_rule (a e c : Int) (he : 0 ≤ e) (hc : 0 ≤ c) :
    (verify_file_integrity (some a) e c = true ↔
      (|(a : ℚ) - (e : ℚ)| ≤ ((max e c : Int) : ℚ) * (2 / 100) ∨
       |(a : ℚ) - (c : ℚ)| ≤ ((max e c : Int) : ℚ) * (2 / 100) ∨
       |(a : ℚ) - (c : ℚ)| ≤ (c : ℚ) * (5 / 100))) ∧
    (a = e ∨ a = c → verify_file_integrity (some a) e c = true) ∧
    (max (((max e c : Int) : ℚ) * (2 / 100)) ((c : ℚ) * (5 / 100)) < |(a : ℚ) - (e : ℚ)| →
     max (((max e c : Int) : ℚ) * (2 / 100)) ((c : ℚ) * (5 / 100)) < |(a : ℚ) - (c : ℚ)| →
     verify_file_integrity (some a) e c = false) := by
  have htol : (0 : ℚ) ≤ ((max e c : Int) : ℚ) * (2 / 100) := by
    have h1 : (0 : Int) ≤ max e c := le_trans he (le_max_left e c)
    have h2 : (0 : ℚ) ≤ ((max e c : Int) : ℚ) := by exact_mod_cast h1
    positivity
  refine ⟨verify_file_integrity_iff a e c, ?_, ?_⟩
  · rintro (rfl | rfl)
    · rw [verify_file_integrity_iff]
      left
      simpa using htol
    · rw [verify_file_integrity_iff]
      right
      left
      simpa using htol
  · intro h1 h2
    have hmax1 := le_max_left (((max e c : Int) : ℚ) * (2 / 100)) ((c : ℚ) * (5 / 100))
    have hmax2 := le_max_right (((max e c : Int) : ℚ) * (2 / 100)) ((c : ℚ) * (5 / 100))
    rw [← Bool.not_eq_true, verify_file_integrity_iff]
    push_neg
    exact ⟨by linarith, by linarith, by linarith⟩

/-- Witness for C3 at `a = 100`, `e = 100`, `c = 98`. -/
theorem integrity_tolerance_rule_witness :
    (verify_file_integrity (some 100) 100 98 = true ↔
      (|((100 : Int) : ℚ) - ((100 : Int) : ℚ)| ≤ ((max 100 98 : Int) : ℚ) * (2 / 100) ∨
       |((100 : Int) : ℚ) - ((98 : Int) : ℚ)| ≤ ((max 100 98 : Int) : ℚ) * (2 / 100) ∨
       |((100 : Int) : ℚ) - ((98 : Int) : ℚ)| ≤ ((98 : Int) : ℚ) * (5 / 100))) ∧
    ((100 : Int) = 100 ∨ (100 : Int) = 98 → verify_file_integrity (some 100) 100 98 = true) ∧
    (max (((max 100 98 : Int) : ℚ) * (2 / 100)) (((98 : Int) : ℚ) * (5 / 100)) <
        |((100 : Int) : ℚ) - ((100 : Int) : ℚ)| →
     max (((max 100 98 : Int) : ℚ) * (2 / 100)) (((98 : Int) : ℚ) * (5 / 100)) <
        |((100 : Int) : ℚ) - ((98 : Int) : ℚ)| →
     verify_file_integrity (some 100) 100 98 = false) :=
  integrity_tolerance_rule 100 100 98 (by decide) (by decide)

/-- C10: the integrity check is total: when the merged file's size cannot be
read (the `os.path.getsize` call fails, e.g. the file does not exist), it
returns `false` instead of propagating the exception, for every pair of
reference sizes. -/
theorem integrity_total_on_read_failure (e c : Int) :
    verify_file_integrity none e c = false := rfl

/-! ## Resume inspection (`check_existing_download`, lines 80-101)

The filesystem is modelled by a flag for the temp directory's existence and
a map `fileSizes : Nat → Option Nat` giving the size of `chunk_i`, or
`none` when that file is missing. The returned directory path is modelled
as `Option Unit` (`none` = "no resumable state"). -/

/-- The inspection loop of lines 92-99: walk the expected segment files in
index order collecting sizes; the first missing file aborts the whole
inspection. -/
def collectResumeSizes : List (Option Nat) → Option (List Nat)
  | [] => some []
  | none :: _ => none
  | some s :: rest => (collectResumeSizes rest).map (s :: ·)

/-- `check_existing_download` (lines 80-101). -/
def check_existing_download (tempDirExists : Bool) (num_threads : Nat)
    (fileSizes : Nat → Option Nat) : Option Unit × List Nat :=
  if !tempDirExists then
    (none, List.replicate num_threads 0)
  else
    match collectResumeSizes ((List.range num_threads).map fileSizes) with
    | none => (none, List.replicate num_threads 0)
    | some resume_sizes => (some (), resume_sizes)

lemma collectResumeSizes_of_mem_none (l : List (Option Nat)) (h : none ∈ l) :
    collectResumeSizes l = none := by
  induction l with
  | nil => cases h
  | cons f rest ih =>
    cases f with
    | none => rfl
    | some s =>
      have : none ∈ rest := by
        rcases List.mem_cons.mp h with h1 | h1
        · cases h1
        · exact h1
      simp [collectResumeSizes, ih this]

lemma collectResumeSizes_of_all_some (l : List (Option Nat))
    (h : ∀ f ∈ l, f.isSome = true) :
    collectResumeSizes l = some (l.map (fun f => f.getD 0)) := by
  induction l with
  | nil => rfl
  | cons f rest ih =>
    cases f with
    | none => simpa using h none (List.mem_cons_self none rest)
    | some s =>
      have := ih (fun f hf => h f (List.mem_cons_of_mem _ hf))
      simp [collectResumeSizes, this]

/-- C5: for every `N ≥ 1`, the inspection reports "no resumable state" with
all-zero offsets when the temp directory is missing or any one of the `N`
expected segment files `chunk_0 .. chunk_(N-1)` is missing, and it returns
the per-segment file sizes as resume offsets exactly when the directory and
every one of the `N` files exist. -/
theorem resume_all_or_nothing (N : Nat) (hN : 0 < N) (tempDirExists : Bool)
    (fileSizes : Nat → Option Nat) :
    ((tempDirExists = false ∨ ∃ i, i < N ∧ fileSizes i = none) →
      check_existing_download tempDirExists N fileSizes =
        (none, List.replicate N 0)) ∧
    ((tempDirExists = true ∧ ∀ i, i < N → (fileSizes i).isSome = true) →
      check_existing_download tempDirExists N fileSizes =
        (some (), (List.range N).map (fun i => (fileSizes i).getD 0))) := by
  constructor
  · rintro (rfl | ⟨i, hi, hnone⟩)
    · rfl
    · cases tempDirExists with
      | false => rfl
      | true =>
        have hmem : none ∈ (List.range N).map fileSizes := by
          rw [List.mem_map]
          exact ⟨i, List.mem_range.mpr hi, hnone⟩
        simp [check_existing_download, collectResumeSizes_of_mem_none _ hmem]
  · rintro ⟨rfl, hall⟩
    have hsome : ∀ f ∈ (List.range N).map fileSizes, f.isSome = true := by
      intro f hf
      rcases List.mem_map.mp hf with ⟨i, hi, rfl⟩
      exact hall i (List.mem_range.mp hi)
    simp [check_existing_download, collectResumeSizes_of_all_some _ hsome]

/-- Witness for C5 at `N = 2` with `chunk_1` missing. -/
theorem resume_all_or_nothing_witness :
    ((true = false ∨ ∃ i, i < 2 ∧ (fun j => if j = 0 then some 5 else none) i = none) →
      check_existing_download true 2 (fun j => if j = 0 then some 5 else none) =
        (none, List.replicate 2 0)) ∧
    ((true = true ∧ ∀ i, i < 2 →
        ((fun j => if j = 0 then some 5 else (none : Option Nat)) i).isSome = true) →
      check_existing_download true 2 (fun j => if j = 0 then some 5 else none) =
        (some (), (List.range 2).map
          (fun i => ((fun j => if j = 0 then some 5 else (none : Option Nat)) i).getD 0))) :=
  resume_all_or_nothing 2 (by decide) true (fun j => if j = 0 then some 5 else none)

/-! ## Coordinator end-of-run decision (`tui`, lines 507-544)

The tail of `tui` after the progress loop. The loop (line 473) runs while
`total_downloaded < file_size and not shutdown and not download_complete`;
`download_complete` is only ever set after `tui` returns, so at loop exit
either `shutdown` holds or `total_downloaded >= file_size`. The effects of
the tail are: whether `merge_chunks_fast` is invoked, whether
`cleanup_temp_files` is invoked, and whether a screen telling the operator
that resume is possible is shown (`show_error_screen` prints "You can
resume the download later"; `show_interrupted_screen` prints "Download can
be resumed later"). `mergeSucceeds` and `verifyOk` abstract the results of
`merge_chunks_fast` and `verify_file_integrity`. -/

/-- Observable effects of the post-loop tail of `tui`. -/
structure TuiEffects where
  mergeAttempted : Bool
  cleanupCalled : Bool
  resumeMsgShown : Bool
deriving DecidableEq

/-- The post-loop tail of `tui` (lines 507-544). -/
def tuiPostLoop (shutdown : Bool) (total_downloaded file_size : Nat)
    (chunkExists : List Bool) (mergeSucceeds verifyOk : Bool) : TuiEffects :=
  if !shutdown && decide (file_size ≤ total_downloaded) then
    if chunkExists.all id then
      if mergeSucceeds then
        if verifyOk then ⟨true, true, false⟩
        else ⟨true, false, true⟩
      else ⟨true, false, true⟩
    else ⟨false, false, true⟩
  else if shutdown then ⟨false, false, true⟩
  else ⟨false, false, false⟩

/-- C4: the coordinator attempts a merge exactly when shutdown was not
requested, cumulative downloaded bytes reach the total size, and every
segment's on-disk file exists; in every other outcome of the progress loop
the run ends without merging, `cleanup_temp_files` is never called (the
segment state directory is retained) and the operator is shown a screen
saying the download can be resumed. -/
theorem coordinator_merge_decision (shutdown : Bool)
    (total_downloaded file_size : Nat) (chunkExists : List Bool)
    (mergeSucceeds verifyOk : Bool)
    (hExit : shutdown = true ∨ file_size ≤ total_downloaded) :
    ((tuiPostLoop shutdown total_downloaded file_size chunkExists
        mergeSucceeds verifyOk).mergeAttempted = true ↔
      (shutdown = false ∧ file_size ≤ total_downloaded ∧
        chunkExists.all id = true)) ∧
    ((tuiPostLoop shutdown total_downloaded file_size chunkExists
        mergeSucceeds verifyOk).mergeAttempted = false →
      (tuiPostLoop shutdown total_downloaded file_size chunkExists
        mergeSucceeds verifyOk).cleanupCalled = false ∧
      (tuiPostLoop shutdown total_downloaded file_size chunkExists
        mergeSucceeds verifyOk).resumeMsgShown = true) := by
  unfold tuiPostLoop
  cases shutdown <;>
    by_cases hd : file_size ≤ total_downloaded <;>
    by_cases hc : chunkExists.all id = true <;>
    cases mergeSucceeds <;>
    cases verifyOk <;>
    simp_all

/-- Witness for C4: shutdown requested mid-transfer. -/
theorem coordinator_merge_decision_witness :
    ((tuiPostLoop true 10 100 [true, true] true true).mergeAttempted = true ↔
      (true = false ∧ 100 ≤ 10 ∧ ([true, true] : List Bool).all id = true)) ∧
    ((tuiPostLoop true 10 100 [true, true] true true).mergeAttempted = false →
      (tuiPostLoop true 10 100 [true, true] true true).cleanupCalled = false ∧
      (tuiPostLoop true 10 100 [true, true] true true).resumeMsgShown = true) :=
  coordinator_merge_decision true 10 100 [true, true] true true (Or.inl rfl)

/-! ## Segment fetcher (`download_chunk`, lines 120-202)

A segment is `(start, end)` with `end : Option Int` (`none` models the
Python `''` open end of the last segment). The shared progress dictionary
keeps the two byte counters and the error counter. -/

/-- The shared progress counters touched by `download_chunk`. -/
structure Progress where
  total_downloaded : Int
  active_downloaded : Int
  errors : Nat
deriving DecidableEq

/-- `expected_size` computed at lines 128-133: `None` for the open last
segment, else `end - start + 1`. -/
def expectedSize (start : Int) (endo : Option Int) : Option Int :=
  match endo with
  | none => none
  | some e => some (e - start + 1)

/-- The Range header construction of lines 137-147, as the pair
(range start, range end); `none` is an open-ended range `bytes=x-`. -/
def rangeRequest (start : Int) (endo : Option Int) (resume_size : Int) :
    Int × Option Int :=
  if resume_size > 0 then
    match endo with
    | none => (start + resume_size, none)
    | some e => (start + resume_size, some e)
  else
    match endo with
    | some e => (start, some e)
    | none => (start, none)

/-- The streaming loop of one attempt (lines 153-165) in the uninterrupted
case (shutdown and download-complete stay false): read up to
`CHUNK_READ_SIZE` bytes at a time from a response carrying `remaining`
bytes, write each buffer to the segment file and add its length to
`current_size`, breaking once a Python-truthy `expected_size` has been
reached; returns the final `current_size` together with the final on-disk
file length, starting from the `file_len` bytes the `open` of line 152
left in the file. `current_size` is line 135's running counter: it
survives retries, while the file length restarts from whatever mode the
file was reopened with, so the two need not stay equal across attempts. -/
def readLoop (expected_size : Option Int) (current_size : Int)
    (file_len : Nat) (remaining : Nat) : Int × Nat :=
  if remaining = 0 then (current_size, file_len)
  else
    let c := current_size + (min CHUNK_READ_SIZE remaining : Nat)
    let fl := file_len + min CHUNK_READ_SIZE remaining
    if (match expected_size with
        | some es => decide (es ≠ 0) && decide (es ≤ c)
        | none => false) then (c, fl)
    else readLoop expected_size c fl (remaining - min CHUNK_READ_SIZE remaining)
termination_by remaining
decreasing_by
  have h2 : 0 < CHUNK_READ_SIZE := by decide
  omega

/-- The `open(temp_file, 'ab' if resume_size > 0 else 'wb')` of line 152:
the segment file's length right after opening — the `on_disk` bytes it
already holds when appending, zero (truncation) otherwise. -/
def openFileLen (resume_size : Int) (on_disk : Nat) : Nat :=
  if resume_size > 0 then on_disk else 0

/-- One streamed attempt of the transfer body (lines 152-165): open the
segment file per `openFileLen` over the `on_disk` bytes it currently
holds, then stream the `delivered` bytes the server sends on this attempt
(the full requested range unless the connection drops first); returns the
final `(current_size, file length)`. -/
def attemptStream (resume_size : Int) (expected_size : Option Int)
    (current_size : Int) (on_disk : Nat) (delivered : Nat) : Int × Nat :=
  readLoop expected_size current_size (openFileLen resume_size on_disk) delivered

/-- The completion check of lines 167-173, run after a streamed attempt:
`true` means `raise Exception("Chunk incomplete: ...")`. The outer guard is
Python-truthy `expected_size` (so `None` and `0` skip it); the inner guard
`end != ''` raises only for a bounded (non-last) segment. In the source
`expected_size` is `None` exactly when `end == ''`. -/
def chunkIncompleteRaised (start : Int) (endo : Option Int)
    (current_size : Int) : Bool :=
  match expectedSize start endo with
  | none => false
  | some es =>
    if es ≠ 0 ∧ current_size < es then decide (endo ≠ none)
    else false

/-- The `except HTTPError` branch for code 416 (lines 176-184): the segment
is already complete server-side; if the planned size is known
(Python-truthy) and local accounting falls short of it, credit the
difference to both shared counters. -/
def handle416 (expected_size : Option Int) (current_size : Int)
    (p : Progress) : Progress :=
  match expected_size with
  | none => p
  | some es =>
    if es ≠ 0 ∧ current_size < es then
      { p with
        total_downloaded := p.total_downloaded + (es - current_size),
        active_downloaded := p.active_downloaded + (es - current_size) }
    else p

/-- How one attempt inside the retry loop ends. -/
inductive AttemptResult where
  | streamOk
  | rangeNotSatisfiable
  | httpError
  | connectionError
deriving DecidableEq

/-- How the retry loop as a whole ends: `success` is the `break`,
`failure` is the `raise Exception("Failed to download chunk after ...")`,
`aborted` is falling out of the `while` guard without either. -/
inductive FetchOutcome where
  | success
  | failure
  | aborted
deriving DecidableEq

/-- The retry loop of `download_chunk` (lines 149-202). `att k` is how the
attempt made at retry counter `k` ends; `shut k` and `comp k` are the
values of the shutdown and download-complete flags read at the checks for
retry counter `k`. Returns the updated progress, the loop outcome, the
number of attempts made, and the total seconds slept in
`time.sleep(RETRY_DELAY)` calls. -/
def downloadLoop (att : Nat → AttemptResult) (shut comp : Nat → Bool)
    (expected_size : Option Int) (current_size : Int)
    (retries : Nat) (p : Progress) : Progress × FetchOutcome × Nat × Nat :=
  if h : retries < MAX_RETRIES ∧ shut retries = false ∧ comp retries = false then
    match att retries with
    | .streamOk => (p, .success, 1, 0)
    | .rangeNotSatisfiable =>
      (handle416 expected_size current_size p, .success, 1, 0)
    | .httpError =>
      if h2 : retries + 1 < MAX_RETRIES ∧ shut (retries + 1) = false ∧
          comp (retries + 1) = false then
        let r := downloadLoop att shut comp expected_size current_size
          (retries + 1) p
        (r.1, r.2.1, r.2.2.1 + 1, r.2.2.2 + RETRY_DELAY)
      else ({ p with errors := p.errors + 1 }, .failure, 1, 0)
    | .connectionError =>
      if h2 : retries + 1 < MAX_RETRIES ∧ shut (retries + 1) = false ∧
          comp (retries + 1) = false then
        let r := downloadLoop att shut comp expected_size current_size
          (retries + 1) p
        (r.1, r.2.1, r.2.2.1 + 1, r.2.2.2 + RETRY_DELAY)
      else ({ p with errors := p.errors + 1 }, .failure, 1, 0)
  else (p, .aborted, 0, 0)
termination_by MAX_RETRIES - retries
decreasing_by
  · omega
  · omega

lemma downloadLoop_all_fail (att : Nat → AttemptResult) (shut comp : Nat → Bool)
    (e : Option Int) (c : Int) (p : Progress)
    (hatt : ∀ k, att k = .httpError ∨ att k = .connectionError)
    (hshut : ∀ k, shut k = false) (hcomp : ∀ k, comp k = false)
    (retries : Nat) (hr : retries < MAX_RETRIES) :
    downloadLoop att shut comp e c retries p =
      ({ p with errors := p.errors + 1 }, .failure,
        MAX_RETRIES - retries, (MAX_RETRIES - retries - 1) * RETRY_DELAY) := by
  rw [downloadLoop, dif_pos ⟨hr, hshut retries, hcomp retries⟩]
  by_cases h2 : retries + 1 < MAX_RETRIES
  · have hrec := downloadLoop_all_fail att shut comp e c p hatt hshut hcomp
      (retries + 1) h2
    have h3 : MAX_RETRIES - (retries + 1) + 1 = MAX_RETRIES - retries := by omega
    have h4 : (MAX_RETRIES - (retries + 1) - 1) * RETRY_DELAY + RETRY_DELAY =
        (MAX_RETRIES - retries - 1) * RETRY_DELAY := by
      simp only [RETRY_DELAY]
      omega
    rcases hatt retries with h | h <;>
      (rw [h]
       dsimp only
       rw [dif_pos ⟨h2, hshut (retries + 1), hcomp (retries + 1)⟩, hrec]
       dsimp only
       rw [h3, h4])
  · have hneg : ¬(retries + 1 < MAX_RETRIES ∧ shut (retries + 1) = false ∧
        comp (retries + 1) = false) := fun hcontra => h2 hcontra.1
    have h3 : MAX_RETRIES - retries = 1 := by omega
    rcases hatt retries with h | h <;>
      (rw [h]
       dsimp only
       rw [dif_neg hneg, h3]
       simp)
termination_by MAX_RETRIES - retries
decreasing_by omega

/-- C7: under persistent transient network failures or non-416 HTTP errors
(and no shutdown or completion signal) the fetcher makes exactly
`MAX_RETRIES = 5` attempts separated by `RETRY_DELAY`-second sleeps
(4 sleeps, 20 seconds total), then raises a fetch failure and increments
the shared error counter exactly once; and when shutdown is observed after
a failed first attempt, no further retry is made (one attempt, no sleep)
and the failure is raised with the error counter incremented once. -/
theorem fetch_retry_policy (att att' att'' : Nat → AttemptResult)
    (shut comp shut' comp' shut'' comp'' : Nat → Bool)
    (e : Option Int) (c : Int) (p : Progress)
    (hatt : ∀ k, att k = .httpError ∨ att k = .connectionError)
    (hshut : ∀ k, shut k = false) (hcomp : ∀ k, comp k = false)
    (hatt0 : att' 0 = .connectionError)
    (hshut0 : shut' 0 = false) (hcomp0 : comp' 0 = false)
    (hshut1 : shut' 1 = true)
    (hatt0b : att'' 0 = .httpError)
    (hshut0b : shut'' 0 = false) (hcomp0b : comp'' 0 = false)
    (hcomp1b : comp'' 1 = true) :
    downloadLoop att shut comp e c 0 p =
      ({ p with errors := p.errors + 1 }, .failure, MAX_RETRIES,
        (MAX_RETRIES - 1) * RETRY_DELAY) ∧
    downloadLoop att' shut' comp' e c 0 p =
      ({ p with errors := p.errors + 1 }, .failure, 1, 0) ∧
    downloadLoop att'' shut'' comp'' e c 0 p =
      ({ p with errors := p.errors + 1 }, .failure, 1, 0) := by
  refine ⟨?_, ?_, ?_⟩
  · simpa using downloadLoop_all_fail att shut comp e c p hatt hshut hcomp 0
      (by simp [MAX_RETRIES])
  · rw [downloadLoop, dif_pos ⟨by simp [MAX_RETRIES], hshut0, hcomp0⟩, hatt0]
    dsimp only
    rw [dif_neg (fun hcontra => by simp [hshut1] at hcontra)]
  · rw [downloadLoop, dif_pos ⟨by simp [MAX_RETRIES], hshut0b, hcomp0b⟩, hatt0b]
    dsimp only
    rw [dif_neg (fun hcontra => by simp [hcomp1b] at hcontra)]

/-- Witness for C7: a run where every attempt hits a connection error, a run
whose first attempt fails with shutdown observed right after, and a run
whose first attempt fails with the download-complete signal observed right
after. -/
theorem fetch_retry_policy_witness :
    downloadLoop (fun _ => .connectionError) (fun _ => false) (fun _ => false)
        (some 10) 0 0 ⟨0, 0, 0⟩ =
      (⟨0, 0, 1⟩, .failure, MAX_RETRIES, (MAX_RETRIES - 1) * RETRY_DELAY) ∧
    downloadLoop (fun _ => .connectionError) (fun k => decide (0 < k))
        (fun _ => false) (some 10) 0 0 ⟨0, 0, 0⟩ =
      (⟨0, 0, 1⟩, .failure, 1, 0) ∧
    downloadLoop (fun _ => .httpError) (fun _ => false)
        (fun k => decide (0 < k)) (some 10) 0 0 ⟨0, 0, 0⟩ =
      (⟨0, 0, 1⟩, .failure, 1, 0) :=
  fetch_retry_policy (fun _ => .connectionError) (fun _ => .connectionError)
    (fun _ => .httpError)
    (fun _ => false) (fun _ => false) (fun k => decide (0 < k)) (fun _ => false)
    (fun _ => false) (fun k => decide (0 < k))
    (some 10) 0 ⟨0, 0, 0⟩
    (fun _ => Or.inr rfl) (fun _ => rfl) (fun _ => rfl)
    rfl rfl rfl rfl rfl rfl rfl rfl

/-- C6: a 416 (range not satisfiable) answer makes the fetcher treat the
segment as successfully complete in a single attempt; for a bounded segment
whose locally accounted bytes fall short of the planned size it credits
exactly the difference to both shared progress counters, exactly once, and
when the accounted bytes already equal the planned size it credits
nothing. -/
theorem fetch_416_treated_as_success (att : Nat → AttemptResult)
    (shut comp : Nat → Bool) (es current : Int) (p : Progress)
    (hatt : att 0 = .rangeNotSatisfiable)
    (hshut : shut 0 = false) (hcomp : comp 0 = false) (hes : 0 < es) :
    (current < es →
      downloadLoop att shut comp (some es) current 0 p =
        ({ p with
            total_downloaded := p.total_downloaded + (es - current),
            active_downloaded := p.active_downloaded + (es - current) },
          .success, 1, 0)) ∧
    (current = es →
      downloadLoop att shut comp (some es) current 0 p =
        (p, .success, 1, 0)) := by
  have hstep : downloadLoop att shut comp (some es) current 0 p =
      (handle416 (some es) current p, .success, 1, 0) := by
    rw [downloadLoop, dif_pos ⟨by simp [MAX_RETRIES], hshut, hcomp⟩, hatt]
  constructor
  · intro hlt
    rw [hstep]
    simp only [handle416]
    rw [if_pos ⟨by omega, hlt⟩]
  · intro heq
    rw [hstep]
    simp only [handle416]
    rw [if_neg (by omega)]

/-- Witness for C6: planned size 10, 4 bytes accounted, and the
already-complete case. -/
theorem fetch_416_treated_as_success_witness :
    ((4 : Int) < 10 →
      downloadLoop (fun _ => .rangeNotSatisfiable) (fun _ => false)
          (fun _ => false) (some 10) 4 0 ⟨0, 0, 0⟩ =
        (⟨0 + (10 - 4), 0 + (10 - 4), 0⟩, .success, 1, 0)) ∧
    ((4 : Int) = 10 →
      downloadLoop (fun _ => .rangeNotSatisfiable) (fun _ => false)
          (fun _ => false) (some 10) 4 0 ⟨0, 0, 0⟩ =
        (⟨0, 0, 0⟩, .success, 1, 0)) :=
  fetch_416_treated_as_success (fun _ => .rangeNotSatisfiable) (fun _ => false)
    (fun _ => false) 10 4 ⟨0, 0, 0⟩ rfl rfl rfl (by decide)

lemma readLoop_add (es : Int) (remaining : Nat) (current : Int) (file_len : Nat)
    (h : current + (remaining : Int) ≤ es) :
    readLoop (some es) current file_len remaining =
      (current + remaining, file_len + remaining) := by
  rw [readLoop]
  by_cases h0 : remaining = 0
  · simp [h0]
  · rw [if_neg h0]
    dsimp only
    by_cases hbr : (decide (es ≠ 0) &&
        decide (es ≤ current + ((min CHUNK_READ_SIZE remaining : Nat) : Int))) = true
    · rw [if_pos hbr]
      simp only [Bool.and_eq_true, decide_eq_true_eq] at hbr
      have hd : min CHUNK_READ_SIZE remaining ≤ remaining := Nat.min_le_right _ _
      have hdr : min CHUNK_READ_SIZE remaining = remaining := by omega
      rw [hdr]
    · rw [if_neg hbr]
      have hd : min CHUNK_READ_SIZE remaining ≤ remaining := Nat.min_le_right _ _
      have hrec := readLoop_add es (remaining - min CHUNK_READ_SIZE remaining)
        (current + ((min CHUNK_READ_SIZE remaining : Nat) : Int))
        (file_len + min CHUNK_READ_SIZE remaining) (by push_cast; omega)
      rw [hrec]
      simp only [Prod.mk.injEq]
      exact ⟨by push_cast; omega, by omega⟩
termination_by remaining
decreasing_by
  have h2 : 0 < CHUNK_READ_SIZE := by decide
  omega

/-- Counterexample to C8 as stated: bounded segment `[0, 131071]` (planned
length 131072 = 2 * `CHUNK_READ_SIZE`), resume offset 0. The first attempt
opens the file `'wb'` and streams one 65536-byte buffer before the
connection drops; the retry reopens the file `'wb'` — truncating it, since
`resume_size` is still 0 — while line 135's `current_size` keeps the 65536
already counted. The re-sent full range then trips the early break of line
164 as soon as `current_size` reaches the planned size, the completion
check of lines 168-171 passes, and the fetch reports success (two
attempts, one `RETRY_DELAY` sleep, no error counted) — yet the on-disk
segment file holds 65536 bytes, not the planned 131072. -/
theorem fetch_completion_counterexample :
    attemptStream 0 (expectedSize 0 (some 131071)) 0 0 65536 =
      (65536, 65536) ∧
    attemptStream 0 (expectedSize 0 (some 131071)) 65536 65536 131072 =
      (131072, 65536) ∧
    downloadLoop (fun k => if k = 0 then .connectionError else .streamOk)
        (fun _ => false) (fun _ => false) (expectedSize 0 (some 131071)) 0 0
        ⟨0, 0, 0⟩ =
      (⟨0, 0, 0⟩, .success, 2, RETRY_DELAY) ∧
    chunkIncompleteRaised 0 (some 131071)
      (attemptStream 0 (expectedSize 0 (some 131071)) 65536 65536 131072).1 =
      false ∧
    ((attemptStream 0 (expectedSize 0 (some 131071)) 65536 65536 131072).2 : Int)
      ≠ 131071 - 0 + 1 := by
  have h1 : attemptStream 0 (expectedSize 0 (some 131071)) 0 0 65536 =
      (65536, 65536) := by
    rw [attemptStream, expectedSize, openFileLen, readLoop]
    norm_num [CHUNK_READ_SIZE]
    rw [readLoop]
    norm_num
  have h2 : attemptStream 0 (expectedSize 0 (some 131071)) 65536 65536 131072 =
      (131072, 65536) := by
    rw [attemptStream, expectedSize, openFileLen, readLoop]
    norm_num [CHUNK_READ_SIZE]
  refine ⟨h1, h2, ?_, ?_, ?_⟩
  · rw [downloadLoop, dif_pos ⟨by norm_num [MAX_RETRIES], rfl, rfl⟩]
    norm_num [MAX_RETRIES]
    rw [downloadLoop, dif_pos ⟨by norm_num [MAX_RETRIES], rfl, rfl⟩]
    norm_num
  · rw [h2]
    rfl
  · rw [h2]
    norm_num

/-- C8 (amended): for every segment with start `s`, end `e` (bounded or
open) and resume offset `R ≥ 0`, the issued Range request starts at
`s + R` and keeps the segment's end (bounded end `e`, or open for the last
segment); and when a bounded segment completes successfully through an
attempt that begins with the on-disk file holding exactly the `R`
locally-accounted bytes (a first, un-retried attempt of the run) and the
server delivers at most the requested bytes, the final on-disk file length
equals the planned segment length `e - s + 1`. (Without that proviso the
completion half is false of the source: after a mid-stream failure with
resume offset 0 the retry truncates the file while `current_size`
persists, and can succeed with a shorter file — see the counterexample.) -/
theorem fetch_range_and_completion (start e : Int) (R L : Nat)
    (hRL : (R : Int) + (L : Int) ≤ e - start + 1)
    (hpos : 0 < e - start + 1)
    (hsuccess : chunkIncompleteRaised start (some e)
      (attemptStream (R : Int) (expectedSize start (some e)) (R : Int) R L).1 =
      false) :
    (∀ endo : Option Int, ∀ resume : Int, 0 ≤ resume →
      rangeRequest start endo resume = (start + resume, endo)) ∧
    ((attemptStream (R : Int) (expectedSize start (some e)) (R : Int) R L).2 : Int)
      = e - start + 1 := by
  have hopen : openFileLen (R : Int) R = R := by
    unfold openFileLen
    by_cases hR : (R : Int) > 0
    · rw [if_pos hR]
    · rw [if_neg hR]
      omega
  have hstream : attemptStream (R : Int) (expectedSize start (some e))
      (R : Int) R L = ((R : Int) + L, R + L) := by
    unfold attemptStream
    rw [hopen]
    simp only [expectedSize]
    exact readLoop_add (e - start + 1) L R R hRL
  constructor
  · intro endo resume hres
    by_cases hpos' : resume > 0
    · cases endo <;> simp [rangeRequest, hpos']
    · have : resume = 0 := by omega
      subst this
      cases endo <;> simp [rangeRequest]
  · rw [hstream] at hsuccess ⊢
    dsimp only at hsuccess ⊢
    simp only [chunkIncompleteRaised, expectedSize] at hsuccess
    by_cases hcond : (e - start + 1 ≠ 0 ∧ (R : Int) + (L : Int) < e - start + 1)
    · rw [if_pos hcond] at hsuccess
      simp at hsuccess
    · push_cast
      omega

/-- Witness for amended C8: segment `[0, 99]` (planned length 100), resume
offset 40 with 40 bytes on disk, a response of 60 bytes. -/
theorem fetch_range_and_completion_witness :
    ((∀ endo : Option Int, ∀ resume : Int, 0 ≤ resume →
      rangeRequest 0 endo resume = (0 + resume, endo)) ∧
     ((attemptStream ((40 : Nat) : Int) (expectedSize 0 (some 99))
        ((40 : Nat) : Int) 40 60).2 : Int) = 99 - 0 + 1) :=
  fetch_range_and_completion 0 99 40 60 (by norm_num) (by norm_num)
    (by rw [attemptStream, expectedSize, openFileLen, readLoop]
        norm_num [CHUNK_READ_SIZE, chunkIncompleteRaised, expectedSize])

/-- C9: after an attempt that streamed fewer bytes than the planned segment
size, the chunk-incomplete error is raised exactly for a bounded segment
(positive planned size, not the open last segment); the open last segment
never raises it, whatever arrived; and in general the error fires if and
only if the segment is bounded with a Python-truthy planned size that the
accounted bytes fall short of. -/
theorem under_delivery_error_iff_bounded (start : Int) :
    (∀ e current, 0 < e - start + 1 → current < e - start + 1 →
      chunkIncompleteRaised start (some e) current = true) ∧
    (∀ current, chunkIncompleteRaised start none current = false) ∧
    (∀ e current, chunkIncompleteRaised start (some e) current = true ↔
      (e - start + 1 ≠ 0 ∧ current < e - start + 1)) := by
  refine ⟨?_, ?_, ?_⟩
  · intro e current h1 h2
    simp only [chunkIncompleteRaised, expectedSize]
    rw [if_pos ⟨by omega, h2⟩]
    simp
  · intro current
    rfl
  · intro e current
    simp only [chunkIncompleteRaised, expectedSize]
    by_cases hco : (e - start + 1 ≠ 0 ∧ current < e - start + 1)
    · rw [if_pos hco]
      simp [hco]
    · rw [if_neg hco]
      simpa using hco

/-- Witness for C9: bounded segment `[0, 9]` with 5 bytes accounted raises;
an open segment with 5 bytes accounted does not. -/
theorem under_delivery_error_iff_bounded_witness :
    chunkIncompleteRaised 0 (some 9) 5 = true ∧
    chunkIncompleteRaised 0 none 5 = false :=
  ⟨(under_delivery_error_iff_bounded 0).1 9 5 (by norm_num) (by norm_num),
   (under_delivery_error_iff_bounded 0).2.1 5⟩

end TermDM
